import Mathlib

/-!
Verification of the bitmap-font descriptor fixer.

The fixer lives in a single class; its pure core is three methods:

* The method analyzeFontAndFixIssues splits the raw descriptor text on
  the newline character, passes every line that does not start with the
  marker "char id=" through unchanged, and rewrites every marker line
  from its parsed glyph record, appending a newline after every
  processed line.  A falsy guard returns the empty string at once when
  the input text is empty.  Corrections are collected in an ordered
  issues list.
* The method parseCharLine matches the line against the pattern
  id=(\d+).*?x=(\d+).*?y=(\d+).*?width=(\d+).*?height=(\d+).*?
  xoffset=(-?\d+).*?yoffset=(-?\d+).*?xadvance=(\d+)
  and throws on failure.  The record it returns is built from capture
  groups 1 to 6 only.
* The method createCharLine re-serialises a record with the keys
  id, xoffset, yoffset, width, height, xadvance.

Strings are embedded as lists of characters.  The regular expression is
embedded by a sequential key searcher: the pattern is an unanchored
chain of literal keys, each followed by a digit group, glued by lazy
gaps.  For such a chain, leftmost matching with lazy gaps takes, for
each key in turn, the first position at or after the previous group
where the key occurs followed by a parsable number, the number being
the maximal digit run.  Backtracking to a later occurrence is never
needed: the keys start with a letter and contain the equals sign only
at their end, so two occurrences of one key never overlap, and the
suffix that follows a later occurrence is contained in the suffix that
follows an earlier one; hence if the remaining pattern completes after
some occurrence, it also completes after the first.  The searcher below
therefore scans position by position and commits to the first hit.
-/

/-- One character is a decimal digit, the character class of the
pattern token for digits. -/
def isDig (c : Char) : Bool := '0' ≤ c && c ≤ '9'

/-- Numeric value of a digit character. -/
def digVal (c : Char) : Nat := c.toNat - 48

/-- Value of a digit string, as read by parseInt on a match of the
digit group. -/
def digsVal (ds : List Char) : Nat := ds.foldl (fun a c => 10 * a + digVal c) 0

/-- Match a number group at the start of the input: an optional minus
sign (only when the group is (-?\d+)) followed by a maximal nonempty
digit run.  Returns the value and the rest of the input. -/
def parseNum (neg : Bool) (s : List Char) : Option (Int × List Char) :=
  if neg ∧ s.head? = some '-' then
    let p := s.tail.span isDig
    if p.1 = [] then none else some (-(digsVal p.1 : Int), p.2)
  else
    let p := s.span isDig
    if p.1 = [] then none else some ((digsVal p.1 : Int), p.2)

/-- Strip the literal list k from the front of s. -/
def dropPre : List Char → List Char → Option (List Char)
  | [], s => some s
  | _ :: _, [] => none
  | k :: ks, c :: s => if c = k then dropPre ks s else none

/-- Does k occur at the front of s. -/
def isPre (k s : List Char) : Bool := (dropPre k s).isSome

/-- Find the first occurrence of the literal key k that is followed by
a parsable number group; return the value and the input rest after the
digits.  This is one key=group step of the pattern together with the
lazy gap before it. -/
def findKeyNum (k : List Char) (neg : Bool) : List Char → Option (Int × List Char)
  | [] => none
  | c :: s =>
    match dropPre k (c :: s) with
    | some rest =>
      match parseNum neg rest with
      | some vr => some vr
      | none => findKeyNum k neg s
    | none => findKeyNum k neg s

/-- The eight capture groups of the char-line pattern, in pattern
order: id, x, y, width, height, xoffset, yoffset, xadvance.  The
xoffset and yoffset groups allow a minus sign, the others do not. -/
def matchCaptures (line : List Char) :
    Option (Int × Int × Int × Int × Int × Int × Int × Int) := do
  let (v1, s1) ← findKeyNum "id=".data false line
  let (v2, s2) ← findKeyNum "x=".data false s1
  let (v3, s3) ← findKeyNum "y=".data false s2
  let (v4, s4) ← findKeyNum "width=".data false s3
  let (v5, s5) ← findKeyNum "height=".data false s4
  let (v6, s6) ← findKeyNum "xoffset=".data true s5
  let (v7, s7) ← findKeyNum "yoffset=".data true s6
  let (v8, _) ← findKeyNum "xadvance=".data false s7
  pure (v1, v2, v3, v4, v5, v6, v7, v8)

/-- The glyph record returned by parseCharLine. -/
structure Glyph where
  id : Int
  xoffset : Int
  yoffset : Int
  width : Int
  height : Int
  xadvance : Int
deriving DecidableEq, Repr

/-- The source builds the record from capture groups 1 to 6: the field
xoffset receives group 2 (the x key), yoffset receives group 3 (the y
key), xadvance receives group 6 (the xoffset key); groups 7 and 8 are
matched but unused. -/
def parseCharLine (line : List Char) : Option Glyph :=
  (matchCaptures line).map fun m =>
    { id := m.1, xoffset := m.2.1, yoffset := m.2.2.1, width := m.2.2.2.1,
      height := m.2.2.2.2.1, xadvance := m.2.2.2.2.2.1 }

/-- Digit character of a value below ten. -/
def digitChar (n : Nat) : Char :=
  match n with
  | 0 => '0' | 1 => '1' | 2 => '2' | 3 => '3' | 4 => '4'
  | 5 => '5' | 6 => '6' | 7 => '7' | 8 => '8' | 9 => '9'
  | _ => '0'

/-- Decimal digits of a natural number, most significant first; the
first argument is recursion fuel, sufficient whenever it is at least
the number itself. -/
def natDigs : Nat → Nat → List Char
  | 0, n => [digitChar (n % 10)]
  | fuel + 1, n => if n < 10 then [digitChar n] else natDigs fuel (n / 10) ++ [digitChar (n % 10)]

/-- Decimal numeral of a natural number. -/
def natStr (n : Nat) : List Char := natDigs n n

/-- Decimal numeral of an integer, as interpolated into a template
string. -/
def intStr (i : Int) : List Char := if i < 0 then '-' :: natStr i.natAbs else natStr i.natAbs

/-- The line rewritten by createCharLine: fixed key order id, xoffset,
yoffset, width, height, xadvance; the x and y keys are not emitted. -/
def createCharLine (g : Glyph) : List Char :=
  "char id=".data ++ intStr g.id ++
  " xoffset=".data ++ intStr g.xoffset ++
  " yoffset=".data ++ intStr g.yoffset ++
  " width=".data ++ intStr g.width ++
  " height=".data ++ intStr g.height ++
  " xadvance=".data ++ intStr g.xadvance

/-- The correction message of the negative-offset clamp, built from
the record before clamping. -/
def negMsg (g : Glyph) : List Char :=
  "Glyph ID ".data ++ intStr g.id ++
  ": xOffset(".data ++ intStr g.xoffset ++
  ") or yOffset(".data ++ intStr g.yoffset ++
  ") found negative, fixing to 0.".data

/-- The correction message of the advance-overflow rule, built from
the record before the xadvance update. -/
def boundMsg (g : Glyph) : List Char :=
  "Glyph ID ".data ++ intStr g.id ++
  ": xOffset + width (".data ++ intStr (g.xoffset + g.width) ++
  ") exceeds xAdvance (".data ++ intStr g.xadvance ++
  "), adjusting xAdvance.".data

/-- The two fix rules applied to one parsed record, returning the
fixed record and the correction messages in emission order: first the
negative-offset clamp, then the advance-overflow update. -/
def fixGlyph (g : Glyph) : Glyph × List (List Char) :=
  let iss1 : List (List Char) :=
    if 0 < g.width ∧ (g.xoffset < 0 ∨ g.yoffset < 0) then [negMsg g] else []
  let g1 : Glyph :=
    if 0 < g.width ∧ (g.xoffset < 0 ∨ g.yoffset < 0) then
      { g with xoffset := max 0 g.xoffset, yoffset := max 0 g.yoffset }
    else g
  let iss2 : List (List Char) :=
    if g1.xoffset + g1.width > g1.xadvance then [boundMsg g1] else []
  let g2 : Glyph :=
    if g1.xoffset + g1.width > g1.xadvance then
      { g1 with xadvance := g1.xoffset + g1.width + 1 }
    else g1
  (g2, iss1 ++ iss2)

/-- The glyph-record marker tested by startsWith. -/
def charMarker : List Char := "char id=".data

/-- Process the split lines in order: marker lines are parsed, fixed
and rewritten, a malformed marker line aborts the whole run with the
thrown message, other lines pass through.  Returns the processed lines
and the collected issues. -/
def fixLines : List (List Char) → Except (List Char) (List (List Char) × List (List Char))
  | [] => .ok ([], [])
  | l :: ls =>
    if isPre charMarker l then
      match parseCharLine l with
      | none => .error ("Malformed char line: ".data ++ l)
      | some g =>
        match fixLines ls with
        | .error e => .error e
        | .ok (rs, iss) => .ok (createCharLine (fixGlyph g).1 :: rs, (fixGlyph g).2 ++ iss)
    else
      match fixLines ls with
      | .error e => .error e
      | .ok (rs, iss) => .ok (l :: rs, iss)

/-- Split on the newline character, as the split method of strings
does: n separators give n + 1 pieces. -/
def splitNl : List Char → List (List Char)
  | [] => [[]]
  | c :: s =>
    if c = '\n' then [] :: splitNl s
    else
      match splitNl s with
      | [] => [[c]]
      | l :: ls => (c :: l) :: ls

/-- Concatenate the processed lines, a newline after every line, as
the accumulation loop does. -/
def joinNl (ls : List (List Char)) : List Char := ls.foldr (fun l acc => l ++ '\n' :: acc) []

/-- The fix operation: the falsy guard returns the empty text for the
empty input; otherwise the lines are split, processed and re-joined.
Success carries the corrected text and the ordered correction log, the
error carries the thrown message and no text. -/
def analyzeFontAndFixIssues (raw : List Char) : Except (List Char) (List Char × List (List Char)) :=
  if raw = [] then .ok ([], [])
  else
    match fixLines (splitNl raw) with
    | .error e => .error e
    | .ok (rs, iss) => .ok (joinNl rs, iss)

/-- The key of the second capture group, as a character list. -/
def xeq : List Char := "x=".data

/-- The literal k occurs nowhere in the input. -/
def noOcc (k : List Char) : List Char → Bool
  | [] => true
  | c :: s => !(isPre k (c :: s)) && noOcc k s

/-- The input does not start with a digit. -/
def headNotDig : List Char → Bool
  | [] => true
  | c :: _ => !(isDig c)

/-- Every character of the input is a digit. -/
def allDigs (s : List Char) : Bool := s.all isDig

/-- What one input line becomes in the corrected output. -/
def outLine (l : List Char) : List Char :=
  if isPre charMarker l then
    match parseCharLine l with
    | some g => createCharLine (fixGlyph g).1
    | none => l
  else l

/-- The correction messages one input line contributes. -/
def lineIss (l : List Char) : List (List Char) :=
  if isPre charMarker l then
    match parseCharLine l with
    | some g => (fixGlyph g).2
    | none => []
  else []

/-- A glyph-record line whose parsed record changes value during
fixing. -/
def changedLine (l : List Char) : Bool :=
  if isPre charMarker l then
    match parseCharLine l with
    | some g => decide ((fixGlyph g).1 ≠ g)
    | none => false
  else false

/-- A glyph-record line with the eight mandatory fields in the order
of the pattern, space separated, followed by arbitrary trailing
content. -/
def mkCharLine (d1 d2 d3 d4 d5 d6 d7 d8 t : List Char) : List Char :=
  "char id=".data ++ d1 ++ " x=".data ++ d2 ++ " y=".data ++ d3 ++
  " width=".data ++ d4 ++ " height=".data ++ d5 ++ " xoffset=".data ++ d6 ++
  " yoffset=".data ++ d7 ++ " xadvance=".data ++ d8 ++ t

/-! Basic facts about prefix stripping and the key searcher. -/

theorem dropPre_self_append (k s : List Char) : dropPre k (k ++ s) = some s := by
  induction k with
  | nil => rfl
  | cons c k ih => simp [dropPre, ih]

theorem eq_append_of_dropPre {k s r : List Char} (h : dropPre k s = some r) : s = k ++ r := by
  induction k generalizing s with
  | nil =>
    unfold dropPre at h
    cases h
    rfl
  | cons c k ih =>
    cases s with
    | nil => simp [dropPre] at h
    | cons c' s' =>
      unfold dropPre at h
      split at h
      · next heq =>
        subst heq
        simpa using ih h
      · exact absurd h (by simp)

theorem isPre_self_append (k s : List Char) : isPre k (k ++ s) = true := by
  simp [isPre, dropPre_self_append]

theorem dropPre_cons_ne {k₀ c : Char} {k : List Char} (s : List Char) (h : c ≠ k₀) :
    dropPre (k₀ :: k) (c :: s) = none := by
  simp [dropPre, h]

theorem findKeyNum_cons_none {k : List Char} {neg : Bool} {c : Char} {s : List Char}
    (h : dropPre k (c :: s) = none) :
    findKeyNum k neg (c :: s) = findKeyNum k neg s := by
  simp [findKeyNum, h]

theorem findKeyNum_cons_skip {k : List Char} {neg : Bool} {c : Char} {s rest : List Char}
    (h : dropPre k (c :: s) = some rest) (h2 : parseNum neg rest = none) :
    findKeyNum k neg (c :: s) = findKeyNum k neg s := by
  simp [findKeyNum, h, h2]

theorem findKeyNum_cons_hit {k : List Char} {neg : Bool} {c : Char} {s rest : List Char}
    {vr : Int × List Char} (h : dropPre k (c :: s) = some rest)
    (h2 : parseNum neg rest = some vr) :
    findKeyNum k neg (c :: s) = some vr := by
  simp [findKeyNum, h, h2]

/-! Values captured by a group without a sign option are never
negative. -/

theorem parseNum_false_eq (s : List Char) :
    parseNum false s =
      if (s.span isDig).1 = [] then none
      else some ((digsVal (s.span isDig).1 : Int), (s.span isDig).2) := by
  simp [parseNum]

theorem parseNum_true_dash (t : List Char) :
    parseNum true ('-' :: t) =
      if (t.span isDig).1 = [] then none
      else some (-(digsVal (t.span isDig).1 : Int), (t.span isDig).2) := by
  simp [parseNum]

theorem parseNum_true_nodash {s : List Char} (h : s.head? ≠ some '-') :
    parseNum true s =
      if (s.span isDig).1 = [] then none
      else some ((digsVal (s.span isDig).1 : Int), (s.span isDig).2) := by
  simp [parseNum, h]

theorem parseNum_false_nonneg {s : List Char} {v : Int} {r : List Char}
    (h : parseNum false s = some (v, r)) : 0 ≤ v := by
  rw [parseNum_false_eq] at h
  split at h
  · simp at h
  · cases h
    exact Int.ofNat_nonneg _

theorem findKeyNum_false_nonneg {k s : List Char} {v : Int} {r : List Char}
    (h : findKeyNum k false s = some (v, r)) : 0 ≤ v := by
  induction s with
  | nil => simp [findKeyNum] at h
  | cons c s ih =>
    cases hd : dropPre k (c :: s) with
    | none =>
      rw [findKeyNum_cons_none hd] at h
      exact ih h
    | some rest =>
      cases hp : parseNum false rest with
      | none =>
        rw [findKeyNum_cons_skip hd hp] at h
        exact ih h
      | some vr =>
        rw [findKeyNum_cons_hit hd hp] at h
        cases h
        exact parseNum_false_nonneg hp

/-! The rest returned by a successful search is a suffix of the
input. -/

theorem parseNum_suffix {neg : Bool} {s : List Char} {v : Int} {r : List Char}
    (h : parseNum neg s = some (v, r)) : ∃ u, s = u ++ r := by
  by_cases hc : neg = true ∧ s.head? = some '-'
  · obtain ⟨hneg, hhead⟩ := hc
    subst hneg
    cases s with
    | nil => simp at hhead
    | cons c0 t =>
      simp at hhead
      subst hhead
      rw [parseNum_true_dash] at h
      split at h
      · simp at h
      · cases h
        refine ⟨'-' :: (t.span isDig).1, ?_⟩
        simp [List.span_eq_take_drop, List.takeWhile_append_dropWhile]
  · have heq : parseNum neg s =
        if (s.span isDig).1 = [] then none
        else some ((digsVal (s.span isDig).1 : Int), (s.span isDig).2) := by
      unfold parseNum
      rw [if_neg hc]
    rw [heq] at h
    split at h
    · simp at h
    · cases h
      refine ⟨(s.span isDig).1, ?_⟩
      simp [List.span_eq_take_drop, List.takeWhile_append_dropWhile]

theorem findKeyNum_suffix {k : List Char} {neg : Bool} {s : List Char} {v : Int}
    {r : List Char} (h : findKeyNum k neg s = some (v, r)) : ∃ u, s = u ++ r := by
  induction s with
  | nil => simp [findKeyNum] at h
  | cons c s ih =>
    cases hd : dropPre k (c :: s) with
    | none =>
      rw [findKeyNum_cons_none hd] at h
      obtain ⟨u, hu⟩ := ih h
      exact ⟨c :: u, by simp [hu]⟩
    | some rest =>
      cases hp : parseNum neg rest with
      | none =>
        rw [findKeyNum_cons_skip hd hp] at h
        obtain ⟨u, hu⟩ := ih h
        exact ⟨c :: u, by simp [hu]⟩
      | some vr =>
        rw [findKeyNum_cons_hit hd hp] at h
        cases h
        obtain ⟨u, hu⟩ := parseNum_suffix hp
        exact ⟨k ++ u, by rw [eq_append_of_dropPre hd, hu, List.append_assoc]⟩

/-! Parsing a digit run glued to a rest that does not start with a
digit recovers exactly the run and the rest. -/

theorem takeWhile_digs {ds r : List Char} (hds : allDigs ds = true)
    (hr : headNotDig r = true) :
    (ds ++ r).takeWhile isDig = ds ∧ (ds ++ r).dropWhile isDig = r := by
  induction ds with
  | nil =>
    cases r with
    | nil => simp
    | cons c r' =>
      unfold headNotDig at hr
      simp at hr
      simp [List.takeWhile_cons, List.dropWhile_cons, hr]
  | cons c ds ih =>
    unfold allDigs at hds
    simp [List.all_cons] at hds
    have := ih (by simpa [allDigs] using hds.2)
    simp [List.takeWhile_cons, List.dropWhile_cons, hds.1, this.1, this.2]

theorem parseNum_digs_false {ds r : List Char} (hds : allDigs ds = true) (hne : ds ≠ [])
    (hr : headNotDig r = true) :
    parseNum false (ds ++ r) = some ((digsVal ds : Int), r) := by
  obtain ⟨h1, h2⟩ := takeWhile_digs hds hr
  rw [parseNum_false_eq]
  simp [List.span_eq_take_drop, h1, h2, hne]

theorem isDig_ne_dash {c : Char} (h : isDig c = true) : c ≠ '-' := by
  intro hc
  subst hc
  simp [isDig] at h

theorem parseNum_digs_true {ds r : List Char} (hds : allDigs ds = true) (hne : ds ≠ [])
    (hr : headNotDig r = true) :
    parseNum true (ds ++ r) = some ((digsVal ds : Int), r) := by
  cases ds with
  | nil => exact absurd rfl hne
  | cons c ds' =>
    have hc : isDig c = true := by
      unfold allDigs at hds
      simp [List.all_cons] at hds
      exact hds.1
    have hds' : allDigs ds' = true := by
      unfold allDigs at hds ⊢
      simp [List.all_cons] at hds
      exact List.all_eq_true.mpr hds.2
    obtain ⟨h1, h2⟩ := takeWhile_digs hds' hr
    rw [parseNum_true_nodash (by simp [isDig_ne_dash hc])]
    simp [List.span_eq_take_drop, List.cons_append, List.takeWhile_cons, List.dropWhile_cons,
      hc, h1, h2]

theorem parseNum_digs_true_dash {ds r : List Char} (hds : allDigs ds = true) (hne : ds ≠ [])
    (hr : headNotDig r = true) :
    parseNum true (('-' :: ds) ++ r) = some (-(digsVal ds : Int), r) := by
  obtain ⟨h1, h2⟩ := takeWhile_digs hds hr
  rw [List.cons_append, parseNum_true_dash]
  simp [List.span_eq_take_drop, h1, h2, hne]

/-! Characters of the numerals produced on rewrite. -/

theorem digitChar_isDig : ∀ n : Nat, n < 10 → isDig (digitChar n) = true := by decide

theorem natDigs_all_digs (fuel n : Nat) : allDigs (natDigs fuel n) = true := by
  induction fuel generalizing n with
  | zero =>
    simp [natDigs, allDigs, digitChar_isDig (n % 10) (Nat.mod_lt n (by norm_num))]
  | succ fuel ih =>
    unfold natDigs
    split
    · next h => simp [allDigs, digitChar_isDig n h]
    · simp only [allDigs, List.all_append, List.all_cons, List.all_nil]
      have := ih (n / 10)
      unfold allDigs at this
      simp [this, digitChar_isDig (n % 10) (Nat.mod_lt n (by norm_num))]

theorem natDigs_ne_nil (fuel n : Nat) : natDigs fuel n ≠ [] := by
  cases fuel with
  | zero => simp [natDigs]
  | succ fuel =>
    unfold natDigs
    split
    · simp
    · simp

theorem natStr_all_digs (n : Nat) : allDigs (natStr n) = true := natDigs_all_digs n n

theorem natStr_ne_nil (n : Nat) : natStr n ≠ [] := natDigs_ne_nil n n

theorem intStr_ne_nil (i : Int) : intStr i ≠ [] := by
  unfold intStr
  split
  · simp
  · exact natStr_ne_nil _

theorem intStr_chars {i : Int} {c : Char} (h : c ∈ intStr i) : isDig c = true ∨ c = '-' := by
  unfold intStr at h
  split at h
  · rcases List.mem_cons.mp h with h | h
    · exact Or.inr h
    · have := natStr_all_digs i.natAbs
      unfold natStr allDigs at this
      exact Or.inl (List.all_eq_true.mp this c h)
  · have := natStr_all_digs i.natAbs
    unfold natStr allDigs at this
    exact Or.inl (List.all_eq_true.mp this c h)

/-! Occurrence reasoning: the search fails when the key occurs nowhere
in the input. -/

theorem xeq_eq : xeq = ['x', '='] := rfl

theorem noOcc_append_right {k u t : List Char} (h : noOcc k (u ++ t) = true) :
    noOcc k t = true := by
  induction u with
  | nil => exact h
  | cons c u ih =>
    simp only [List.cons_append, noOcc, Bool.and_eq_true] at h
    exact ih h.2

theorem findKeyNum_of_noOcc {k : List Char} {neg : Bool} {s : List Char}
    (h : noOcc k s = true) : findKeyNum k neg s = none := by
  induction s with
  | nil => simp [findKeyNum]
  | cons c s ih =>
    simp only [noOcc, Bool.and_eq_true, Bool.not_eq_true'] at h
    have hd : dropPre k (c :: s) = none := by
      have h1 := h.1
      unfold isPre at h1
      cases hdp : dropPre k (c :: s) with
      | none => rfl
      | some r => rw [hdp] at h1; simp at h1
    rw [findKeyNum_cons_none hd]
    exact ih h.2

theorem noOcc_xeq_append {a b : List Char} (ha : noOcc xeq a = true)
    (hb : noOcc xeq b = true) (hhead : b.head? ≠ some '=') :
    noOcc xeq (a ++ b) = true := by
  induction a with
  | nil => simpa using hb
  | cons c a ih =>
    simp only [noOcc, Bool.and_eq_true, Bool.not_eq_true'] at ha
    have ih' := ih ha.2
    simp only [List.cons_append, noOcc, Bool.and_eq_true, Bool.not_eq_true']
    refine ⟨?_, ih'⟩
    by_cases hc : c = 'x'
    · subst hc
      cases a with
      | nil =>
        cases b with
        | nil => simp [isPre, xeq_eq, dropPre]
        | cons b0 b' =>
          have hb0 : b0 ≠ '=' := by
            intro he
            exact hhead (by simp [he])
          simp [isPre, xeq_eq, dropPre, hb0]
      | cons a0 a' =>
        have ha0 : a0 ≠ '=' := by
          intro he
          subst he
          have := ha.1
          simp [isPre, xeq_eq, dropPre] at this
        simp [isPre, xeq_eq, dropPre, ha0]
    · simp [isPre, xeq_eq, dropPre, hc]

theorem noOcc_xeq_of_no_x {s : List Char} (h : ∀ c ∈ s, c ≠ 'x') : noOcc xeq s = true := by
  induction s with
  | nil => rfl
  | cons c s ih =>
    simp only [noOcc, Bool.and_eq_true, Bool.not_eq_true']
    constructor
    · have hc : c ≠ 'x' := h c (by simp)
      simp [isPre, xeq_eq, dropPre, hc]
    · exact ih fun c' hc' => h c' (by simp [hc'])

theorem noOcc_xeq_intStr (i : Int) : noOcc xeq (intStr i) = true :=
  noOcc_xeq_of_no_x fun c hc he => by
    subst he
    rcases intStr_chars hc with h | h
    · exact absurd h (by decide)
    · exact absurd h (by decide)

theorem intStr_head_ne_eq (i : Int) : (intStr i).head? ≠ some '=' := by
  cases hi : intStr i with
  | nil => simp
  | cons c t =>
    have hc : c ∈ intStr i := by rw [hi]; simp
    intro heq
    simp at heq
    subst heq
    rcases intStr_chars hc with h | h
    · exact absurd h (by decide)
    · exact absurd h (by decide)

theorem head?_append_ne {a b : List Char} {c0 : Char} (ha : a ≠ [])
    (h : a.head? ≠ some c0) : (a ++ b).head? ≠ some c0 := by
  cases a with
  | nil => exact absurd rfl ha
  | cons c t => simpa using h

theorem noOcc_xeq_step {a b : List Char} (hna : noOcc xeq a = true) (hne : a ≠ [])
    (hha : a.head? ≠ some '=') (hnb : noOcc xeq b = true) (hhb : b.head? ≠ some '=') :
    noOcc xeq (a ++ b) = true ∧ (a ++ b).head? ≠ some '=' :=
  ⟨noOcc_xeq_append hna hnb hhb, head?_append_ne hne hha⟩

theorem noOcc_xeq_createCharLine (g : Glyph) : noOcc xeq (createCharLine g) = true := by
  unfold createCharLine
  simp only [List.append_assoc]
  have p12 : noOcc xeq (intStr g.xadvance) = true ∧ (intStr g.xadvance).head? ≠ some '=' :=
    ⟨noOcc_xeq_intStr _, intStr_head_ne_eq _⟩
  have p11 := noOcc_xeq_step (a := " xadvance=".data) (by decide) (by decide) (by decide)
    p12.1 p12.2
  have p10 := noOcc_xeq_step (a := intStr g.height) (noOcc_xeq_intStr _) (intStr_ne_nil _)
    (intStr_head_ne_eq _) p11.1 p11.2
  have p9 := noOcc_xeq_step (a := " height=".data) (by decide) (by decide) (by decide)
    p10.1 p10.2
  have p8 := noOcc_xeq_step (a := intStr g.width) (noOcc_xeq_intStr _) (intStr_ne_nil _)
    (intStr_head_ne_eq _) p9.1 p9.2
  have p7 := noOcc_xeq_step (a := " width=".data) (by decide) (by decide) (by decide)
    p8.1 p8.2
  have p6 := noOcc_xeq_step (a := intStr g.yoffset) (noOcc_xeq_intStr _) (intStr_ne_nil _)
    (intStr_head_ne_eq _) p7.1 p7.2
  have p5 := noOcc_xeq_step (a := " yoffset=".data) (by decide) (by decide) (by decide)
    p6.1 p6.2
  have p4 := noOcc_xeq_step (a := intStr g.xoffset) (noOcc_xeq_intStr _) (intStr_ne_nil _)
    (intStr_head_ne_eq _) p5.1 p5.2
  have p3 := noOcc_xeq_step (a := " xoffset=".data) (by decide) (by decide) (by decide)
    p4.1 p4.2
  have p2 := noOcc_xeq_step (a := intStr g.id) (noOcc_xeq_intStr _) (intStr_ne_nil _)
    (intStr_head_ne_eq _) p3.1 p3.2
  have p1 := noOcc_xeq_step (a := "char id=".data) (by decide) (by decide) (by decide)
    p2.1 p2.2
  exact p1.1

/-! Inversion and construction of the capture chain. -/

theorem matchCaptures_eq_some {line : List Char}
    {m : Int × Int × Int × Int × Int × Int × Int × Int} (h : matchCaptures line = some m) :
    ∃ s1 s2 s3 s4 s5 s6 s7 s8,
      findKeyNum "id=".data false line = some (m.1, s1) ∧
      findKeyNum "x=".data false s1 = some (m.2.1, s2) ∧
      findKeyNum "y=".data false s2 = some (m.2.2.1, s3) ∧
      findKeyNum "width=".data false s3 = some (m.2.2.2.1, s4) ∧
      findKeyNum "height=".data false s4 = some (m.2.2.2.2.1, s5) ∧
      findKeyNum "xoffset=".data true s5 = some (m.2.2.2.2.2.1, s6) ∧
      findKeyNum "yoffset=".data true s6 = some (m.2.2.2.2.2.2.1, s7) ∧
      findKeyNum "xadvance=".data false s7 = some (m.2.2.2.2.2.2.2, s8) := by
  unfold matchCaptures at h
  simp only [bind, Option.bind_eq_some, pure, Option.some.injEq] at h
  obtain ⟨⟨v1, s1⟩, h1, ⟨v2, s2⟩, h2, ⟨v3, s3⟩, h3, ⟨v4, s4⟩, h4, ⟨v5, s5⟩, h5,
    ⟨v6, s6⟩, h6, ⟨v7, s7⟩, h7, ⟨v8, s8⟩, h8, hm⟩ := h
  subst hm
  exact ⟨s1, s2, s3, s4, s5, s6, s7, s8, h1, h2, h3, h4, h5, h6, h7, h8⟩

theorem matchCaptures_of_chain {line s1 s2 s3 s4 s5 s6 s7 s8 : List Char}
    {v1 v2 v3 v4 v5 v6 v7 v8 : Int}
    (h1 : findKeyNum "id=".data false line = some (v1, s1))
    (h2 : findKeyNum "x=".data false s1 = some (v2, s2))
    (h3 : findKeyNum "y=".data false s2 = some (v3, s3))
    (h4 : findKeyNum "width=".data false s3 = some (v4, s4))
    (h5 : findKeyNum "height=".data false s4 = some (v5, s5))
    (h6 : findKeyNum "xoffset=".data true s5 = some (v6, s6))
    (h7 : findKeyNum "yoffset=".data true s6 = some (v7, s7))
    (h8 : findKeyNum "xadvance=".data false s7 = some (v8, s8)) :
    matchCaptures line = some (v1, v2, v3, v4, v5, v6, v7, v8) := by
  unfold matchCaptures
  simp [h1, h2, h3, h4, h5, h6, h7, h8, bind]

/-! Fields of any parsed record that come from unsigned groups are
never negative. -/

theorem parseCharLine_nonneg {line : List Char} {g : Glyph} (h : parseCharLine line = some g) :
    0 ≤ g.id ∧ 0 ≤ g.xoffset ∧ 0 ≤ g.yoffset ∧ 0 ≤ g.width ∧ 0 ≤ g.height := by
  unfold parseCharLine at h
  cases hm : matchCaptures line with
  | none => rw [hm] at h; simp at h
  | some m =>
    rw [hm, Option.map_some'] at h
    injection h with h
    obtain ⟨s1, s2, s3, s4, s5, s6, s7, s8, h1, h2, h3, h4, h5, h6, h7, h8⟩ :=
      matchCaptures_eq_some hm
    rw [← h]
    exact ⟨findKeyNum_false_nonneg h1, findKeyNum_false_nonneg h2, findKeyNum_false_nonneg h3,
      findKeyNum_false_nonneg h4, findKeyNum_false_nonneg h5⟩

/-! With non-negative offsets, the clamp rule is inert and only the
overflow rule can fire. -/

theorem fixGlyph_of_nonneg {g : Glyph} (hx : 0 ≤ g.xoffset) (hy : 0 ≤ g.yoffset) :
    fixGlyph g =
      if g.xoffset + g.width > g.xadvance
      then ({ g with xadvance := g.xoffset + g.width + 1 }, [boundMsg g])
      else (g, []) := by
  have hcond : ¬(0 < g.width ∧ (g.xoffset < 0 ∨ g.yoffset < 0)) := by
    rintro ⟨-, h | h⟩ <;> omega
  by_cases h2 : g.xoffset + g.width > g.xadvance <;> simp [fixGlyph, hcond, h2]

theorem fixGlyph_invariants {g : Glyph} (hx : 0 ≤ g.xoffset) (hy : 0 ≤ g.yoffset) :
    0 ≤ (fixGlyph g).1.xoffset ∧ 0 ≤ (fixGlyph g).1.yoffset ∧
      (fixGlyph g).1.xoffset + (fixGlyph g).1.width ≤ (fixGlyph g).1.xadvance := by
  rw [fixGlyph_of_nonneg hx hy]
  by_cases h2 : g.xoffset + g.width > g.xadvance <;> simp [h2] <;> omega

theorem fixGlyph_changed_iff {g : Glyph} (hx : 0 ≤ g.xoffset) (hy : 0 ≤ g.yoffset) :
    (fixGlyph g).1 ≠ g ↔ g.xoffset + g.width > g.xadvance := by
  rw [fixGlyph_of_nonneg hx hy]
  by_cases h2 : g.xoffset + g.width > g.xadvance <;> simp [h2]
  intro heq
  have := congrArg Glyph.xadvance heq
  simp at this
  omega

/-! The rewritten line always carries the marker, never a newline, and
never re-parses: the x key is absent from it. -/

theorem isPre_marker_createCharLine (g : Glyph) :
    isPre charMarker (createCharLine g) = true := by
  unfold createCharLine charMarker
  simp only [List.append_assoc]
  exact isPre_self_append _ _

theorem isDig_ne_nl {c : Char} (h : isDig c = true) : c ≠ '\n' := by
  intro he
  subst he
  exact absurd h (by decide)

theorem intStr_ne_nl {i : Int} {c : Char} (h : c ∈ intStr i) : c ≠ '\n' := by
  rcases intStr_chars h with hd | hd
  · exact isDig_ne_nl hd
  · subst hd; decide

theorem createCharLine_no_nl (g : Glyph) {c : Char} (h : c ∈ createCharLine g) : c ≠ '\n' := by
  unfold createCharLine at h
  simp only [List.append_assoc, List.mem_append] at h
  rcases h with h | h | h | h | h | h | h | h | h | h | h | h
  · exact (by decide : ∀ x ∈ "char id=".data, x ≠ '\n') c h
  · exact intStr_ne_nl h
  · exact (by decide : ∀ x ∈ " xoffset=".data, x ≠ '\n') c h
  · exact intStr_ne_nl h
  · exact (by decide : ∀ x ∈ " yoffset=".data, x ≠ '\n') c h
  · exact intStr_ne_nl h
  · exact (by decide : ∀ x ∈ " width=".data, x ≠ '\n') c h
  · exact intStr_ne_nl h
  · exact (by decide : ∀ x ∈ " height=".data, x ≠ '\n') c h
  · exact intStr_ne_nl h
  · exact (by decide : ∀ x ∈ " xadvance=".data, x ≠ '\n') c h
  · exact intStr_ne_nl h

theorem parseCharLine_createCharLine (g : Glyph) :
    parseCharLine (createCharLine g) = none := by
  unfold parseCharLine
  suffices h : matchCaptures (createCharLine g) = none by simp [h]
  cases h1 : findKeyNum "id=".data false (createCharLine g) with
  | none => unfold matchCaptures; simp [h1, bind]
  | some vr =>
    obtain ⟨v1, s1⟩ := vr
    obtain ⟨u, hu⟩ := findKeyNum_suffix h1
    have hno : noOcc xeq s1 = true := by
      have hline := noOcc_xeq_createCharLine g
      rw [hu] at hline
      exact noOcc_append_right hline
    have hx : findKeyNum "x=".data false s1 = none := by
      have hfound := @findKeyNum_of_noOcc xeq false s1 hno
      unfold xeq at hfound
      exact hfound
    unfold matchCaptures
    simp [h1, hx, bind]

/-! Splitting and joining lines. -/

theorem splitNl_ne_nil (s : List Char) : splitNl s ≠ [] := by
  induction s with
  | nil => simp [splitNl]
  | cons c s ih =>
    unfold splitNl
    split
    · simp
    · cases h : splitNl s with
      | nil => simp
      | cons l ls => simp

theorem no_nl_mem_splitNl {s l : List Char} (hl : l ∈ splitNl s) : '\n' ∉ l := by
  induction s generalizing l with
  | nil =>
    simp [splitNl] at hl
    subst hl
    simp
  | cons c s ih =>
    unfold splitNl at hl
    by_cases hc : c = '\n'
    · rw [if_pos hc] at hl
      rcases List.mem_cons.mp hl with h | h
      · subst h; simp
      · exact ih h
    · rw [if_neg hc] at hl
      cases hs : splitNl s with
      | nil => exact absurd hs (splitNl_ne_nil s)
      | cons l0 ls =>
        rw [hs] at hl
        rcases List.mem_cons.mp hl with h | h
        · subst h
          intro hmem
          rcases List.mem_cons.mp hmem with h' | h'
          · exact hc h'.symm
          · exact ih (l := l0) (by rw [hs]; simp) h'
        · exact ih (by rw [hs]; exact List.mem_cons_of_mem _ h)

theorem splitNl_cons (c : Char) (s : List Char) :
    splitNl (c :: s) =
      if c = '\n' then [] :: splitNl s
      else
        match splitNl s with
        | [] => [[c]]
        | l :: ls => (c :: l) :: ls := rfl

theorem splitNl_append {l r : List Char} (hl : '\n' ∉ l) :
    splitNl (l ++ '\n' :: r) = l :: splitNl r := by
  induction l with
  | nil =>
    rw [List.nil_append, splitNl_cons, if_pos rfl]
  | cons c l ih =>
    have hc : c ≠ '\n' := fun h => hl (by simp [h])
    have hl' : '\n' ∉ l := fun h => hl (by simp [h])
    rw [List.cons_append, splitNl_cons, if_neg hc, ih hl']

theorem splitNl_joinNl {ls : List (List Char)} (h : ∀ l ∈ ls, '\n' ∉ l) :
    splitNl (joinNl ls) = ls ++ [[]] := by
  induction ls with
  | nil => simp [joinNl, splitNl]
  | cons l ls ih =>
    have hj : joinNl (l :: ls) = l ++ '\n' :: joinNl ls := rfl
    rw [hj, splitNl_append (h l (by simp)), ih (fun l' hl' => h l' (by simp [hl']))]
    simp

/-! Structure of a successful line pass, and the exact failure
condition. -/

theorem fixLines_ok {ls rs iss : List (List Char)} (h : fixLines ls = .ok (rs, iss)) :
    rs = ls.map outLine ∧ iss = (ls.map lineIss).flatten := by
  induction ls generalizing rs iss with
  | nil =>
    unfold fixLines at h
    cases h
    simp
  | cons l ls ih =>
    unfold fixLines at h
    by_cases hm : isPre charMarker l
    · rw [if_pos hm] at h
      cases hp : parseCharLine l with
      | none => rw [hp] at h; cases h
      | some g =>
        rw [hp] at h
        cases hfl : fixLines ls with
        | error e => rw [hfl] at h; cases h
        | ok p =>
          obtain ⟨rs', iss'⟩ := p
          rw [hfl] at h
          cases h
          obtain ⟨ih1, ih2⟩ := ih hfl
          constructor
          · simp [outLine, hm, hp, ih1]
          · simp [lineIss, hm, hp, ih2]
    · rw [if_neg hm] at h
      cases hfl : fixLines ls with
      | error e => rw [hfl] at h; cases h
      | ok p =>
        obtain ⟨rs', iss'⟩ := p
        rw [hfl] at h
        cases h
        obtain ⟨ih1, ih2⟩ := ih hfl
        constructor
        · simp [outLine, hm, ih1]
        · simp [lineIss, hm, ih2]

theorem fixLines_error_iff {ls : List (List Char)} :
    (∃ e, fixLines ls = .error e) ↔
      ∃ l ∈ ls, isPre charMarker l = true ∧ parseCharLine l = none := by
  induction ls with
  | nil =>
    constructor
    · rintro ⟨e, he⟩
      unfold fixLines at he
      cases he
    · rintro ⟨l, hl, -⟩
      simp at hl
  | cons l ls ih =>
    constructor
    · rintro ⟨e, he⟩
      unfold fixLines at he
      by_cases hm : isPre charMarker l
      · rw [if_pos hm] at he
        cases hp : parseCharLine l with
        | none => exact ⟨l, by simp, hm, hp⟩
        | some g =>
          rw [hp] at he
          cases hfl : fixLines ls with
          | error e' =>
            obtain ⟨l', hl', hprop⟩ := ih.mp ⟨e', hfl⟩
            exact ⟨l', by simp [hl'], hprop⟩
          | ok p =>
            obtain ⟨rs, iss⟩ := p
            rw [hfl] at he
            simp at he
      · rw [if_neg hm] at he
        cases hfl : fixLines ls with
        | error e' =>
          obtain ⟨l', hl', hprop⟩ := ih.mp ⟨e', hfl⟩
          exact ⟨l', by simp [hl'], hprop⟩
        | ok p =>
          obtain ⟨rs, iss⟩ := p
          rw [hfl] at he
          simp at he
    · rintro ⟨l', hl', hmark, hparse⟩
      rcases List.mem_cons.mp hl' with rfl | hmem
      · refine ⟨"Malformed char line: ".data ++ l', ?_⟩
        unfold fixLines
        rw [if_pos hmark, hparse]
      · obtain ⟨e, he⟩ := ih.mpr ⟨l', hmem, hmark, hparse⟩
        by_cases hm : isPre charMarker l
        · cases hp : parseCharLine l with
          | none => exact ⟨_, by unfold fixLines; rw [if_pos hm, hp]⟩
          | some g => exact ⟨e, by unfold fixLines; rw [if_pos hm, hp, he]⟩
        · exact ⟨e, by unfold fixLines; rw [if_neg hm, he]⟩

theorem outLine_no_nl {s l : List Char} (hl : l ∈ splitNl s) : '\n' ∉ outLine l := by
  unfold outLine
  by_cases hm : isPre charMarker l
  · rw [if_pos hm]
    cases hp : parseCharLine l with
    | none => exact no_nl_mem_splitNl hl
    | some g =>
      intro hmem
      exact createCharLine_no_nl _ hmem rfl
  · rw [if_neg hm]
    exact no_nl_mem_splitNl hl

theorem fix_ok_structure {raw y : List Char} {iss : List (List Char)}
    (h : analyzeFontAndFixIssues raw = .ok (y, iss)) (hne : raw ≠ []) :
    splitNl y = (splitNl raw).map outLine ++ [[]] ∧
      iss = ((splitNl raw).map lineIss).flatten := by
  unfold analyzeFontAndFixIssues at h
  rw [if_neg hne] at h
  cases hfl : fixLines (splitNl raw) with
  | error e =>
    rw [hfl] at h
    simp at h
  | ok p =>
    obtain ⟨rs, iss'⟩ := p
    rw [hfl] at h
    cases h
    obtain ⟨h1, h2⟩ := fixLines_ok hfl
    subst h1
    refine ⟨?_, h2⟩
    rw [splitNl_joinNl ?_]
    intro l hl
    obtain ⟨l0, hl0, rfl⟩ := List.mem_map.mp hl
    exact outLine_no_nl hl0

theorem fix_error_iff (raw : List Char) :
    (∃ e, analyzeFontAndFixIssues raw = .error e) ↔
      ∃ l ∈ splitNl raw, isPre charMarker l = true ∧ parseCharLine l = none := by
  by_cases hne : raw = []
  · subst hne
    constructor
    · rintro ⟨e, he⟩
      simp [analyzeFontAndFixIssues] at he
    · rintro ⟨l, hl, hm, hp⟩
      simp [splitNl] at hl
      subst hl
      exact absurd hm (by decide)
  · unfold analyzeFontAndFixIssues
    rw [if_neg hne]
    constructor
    · rintro ⟨e, he⟩
      cases hfl : fixLines (splitNl raw) with
      | error e' => exact fixLines_error_iff.mp ⟨e', hfl⟩
      | ok p =>
        obtain ⟨rs, iss⟩ := p
        rw [hfl] at he
        simp at he
    · rintro hex
      obtain ⟨e, he⟩ := fixLines_error_iff.mpr hex
      exact ⟨e, by rw [he]⟩

/-! Locating the keys of a canonical in-order glyph line. -/

theorem findKeyNum_skip_char {k0 c : Char} {k s : List Char} {neg : Bool} (h : c ≠ k0) :
    findKeyNum (k0 :: k) neg (c :: s) = findKeyNum (k0 :: k) neg s :=
  findKeyNum_cons_none (dropPre_cons_ne _ h)

theorem seg_id {d r : List Char} (hd : allDigs d = true) (hdn : d ≠ [])
    (hr : headNotDig r = true) :
    findKeyNum "id=".data false ("char id=".data ++ (d ++ r)) = some ((digsVal d : Int), r) := by
  show findKeyNum "id=".data false
    ('c' :: 'h' :: 'a' :: 'r' :: ' ' :: 'i' :: 'd' :: '=' :: (d ++ r)) = _
  rw [findKeyNum_skip_char (by decide), findKeyNum_skip_char (by decide),
    findKeyNum_skip_char (by decide), findKeyNum_skip_char (by decide),
    findKeyNum_skip_char (by decide)]
  exact findKeyNum_cons_hit rfl (parseNum_digs_false hd hdn hr)

theorem seg_x {d r : List Char} (hd : allDigs d = true) (hdn : d ≠ [])
    (hr : headNotDig r = true) :
    findKeyNum "x=".data false (" x=".data ++ (d ++ r)) = some ((digsVal d : Int), r) := by
  show findKeyNum "x=".data false (' ' :: 'x' :: '=' :: (d ++ r)) = _
  rw [findKeyNum_skip_char (by decide)]
  exact findKeyNum_cons_hit rfl (parseNum_digs_false hd hdn hr)

theorem seg_y {d r : List Char} (hd : allDigs d = true) (hdn : d ≠ [])
    (hr : headNotDig r = true) :
    findKeyNum "y=".data false (" y=".data ++ (d ++ r)) = some ((digsVal d : Int), r) := by
  show findKeyNum "y=".data false (' ' :: 'y' :: '=' :: (d ++ r)) = _
  rw [findKeyNum_skip_char (by decide)]
  exact findKeyNum_cons_hit rfl (parseNum_digs_false hd hdn hr)

theorem seg_width {d r : List Char} (hd : allDigs d = true) (hdn : d ≠ [])
    (hr : headNotDig r = true) :
    findKeyNum "width=".data false (" width=".data ++ (d ++ r)) =
      some ((digsVal d : Int), r) := by
  show findKeyNum "width=".data false
    (' ' :: 'w' :: 'i' :: 'd' :: 't' :: 'h' :: '=' :: (d ++ r)) = _
  rw [findKeyNum_skip_char (by decide)]
  exact findKeyNum_cons_hit rfl (parseNum_digs_false hd hdn hr)

theorem seg_height {d r : List Char} (hd : allDigs d = true) (hdn : d ≠ [])
    (hr : headNotDig r = true) :
    findKeyNum "height=".data false (" height=".data ++ (d ++ r)) =
      some ((digsVal d : Int), r) := by
  show findKeyNum "height=".data false
    (' ' :: 'h' :: 'e' :: 'i' :: 'g' :: 'h' :: 't' :: '=' :: (d ++ r)) = _
  rw [findKeyNum_skip_char (by decide)]
  exact findKeyNum_cons_hit rfl (parseNum_digs_false hd hdn hr)

theorem seg_xoffset {d r : List Char} (hd : allDigs d = true) (hdn : d ≠ [])
    (hr : headNotDig r = true) :
    findKeyNum "xoffset=".data true (" xoffset=".data ++ (d ++ r)) =
      some ((digsVal d : Int), r) := by
  show findKeyNum "xoffset=".data true
    (' ' :: 'x' :: 'o' :: 'f' :: 'f' :: 's' :: 'e' :: 't' :: '=' :: (d ++ r)) = _
  rw [findKeyNum_skip_char (by decide)]
  exact findKeyNum_cons_hit rfl (parseNum_digs_true hd hdn hr)

theorem seg_yoffset {d r : List Char} (hd : allDigs d = true) (hdn : d ≠ [])
    (hr : headNotDig r = true) :
    findKeyNum "yoffset=".data true (" yoffset=".data ++ (d ++ r)) =
      some ((digsVal d : Int), r) := by
  show findKeyNum "yoffset=".data true
    (' ' :: 'y' :: 'o' :: 'f' :: 'f' :: 's' :: 'e' :: 't' :: '=' :: (d ++ r)) = _
  rw [findKeyNum_skip_char (by decide)]
  exact findKeyNum_cons_hit rfl (parseNum_digs_true hd hdn hr)

theorem seg_xadvance {d r : List Char} (hd : allDigs d = true) (hdn : d ≠ [])
    (hr : headNotDig r = true) :
    findKeyNum "xadvance=".data false (" xadvance=".data ++ (d ++ r)) =
      some ((digsVal d : Int), r) := by
  show findKeyNum "xadvance=".data false
    (' ' :: 'x' :: 'a' :: 'd' :: 'v' :: 'a' :: 'n' :: 'c' :: 'e' :: '=' :: (d ++ r)) = _
  rw [findKeyNum_skip_char (by decide)]
  exact findKeyNum_cons_hit rfl (parseNum_digs_false hd hdn hr)

theorem matchCaptures_mkCharLine {d1 d2 d3 d4 d5 d6 d7 d8 t : List Char}
    (h1 : allDigs d1 = true) (h1n : d1 ≠ []) (h2 : allDigs d2 = true) (h2n : d2 ≠ [])
    (h3 : allDigs d3 = true) (h3n : d3 ≠ []) (h4 : allDigs d4 = true) (h4n : d4 ≠ [])
    (h5 : allDigs d5 = true) (h5n : d5 ≠ []) (h6 : allDigs d6 = true) (h6n : d6 ≠ [])
    (h7 : allDigs d7 = true) (h7n : d7 ≠ []) (h8 : allDigs d8 = true) (h8n : d8 ≠ [])
    (ht : headNotDig t = true) :
    matchCaptures (mkCharLine d1 d2 d3 d4 d5 d6 d7 d8 t) =
      some ((digsVal d1 : Int), (digsVal d2 : Int), (digsVal d3 : Int), (digsVal d4 : Int),
        (digsVal d5 : Int), (digsVal d6 : Int), (digsVal d7 : Int), (digsVal d8 : Int)) := by
  have hm : mkCharLine d1 d2 d3 d4 d5 d6 d7 d8 t =
      "char id=".data ++ (d1 ++ (" x=".data ++ (d2 ++ (" y=".data ++ (d3 ++
        (" width=".data ++ (d4 ++ (" height=".data ++ (d5 ++ (" xoffset=".data ++ (d6 ++
          (" yoffset=".data ++ (d7 ++ (" xadvance=".data ++ (d8 ++ t))))))))))))))) := by
    unfold mkCharLine
    simp only [List.append_assoc]
  rw [hm]
  exact matchCaptures_of_chain
    (seg_id h1 h1n rfl) (seg_x h2 h2n rfl) (seg_y h3 h3n rfl) (seg_width h4 h4n rfl)
    (seg_height h5 h5n rfl) (seg_xoffset h6 h6n rfl) (seg_yoffset h7 h7n rfl)
    (seg_xadvance h8 h8n ht)

theorem parseCharLine_mkCharLine {d1 d2 d3 d4 d5 d6 d7 d8 t : List Char}
    (h1 : allDigs d1 = true) (h1n : d1 ≠ []) (h2 : allDigs d2 = true) (h2n : d2 ≠ [])
    (h3 : allDigs d3 = true) (h3n : d3 ≠ []) (h4 : allDigs d4 = true) (h4n : d4 ≠ [])
    (h5 : allDigs d5 = true) (h5n : d5 ≠ []) (h6 : allDigs d6 = true) (h6n : d6 ≠ [])
    (h7 : allDigs d7 = true) (h7n : d7 ≠ []) (h8 : allDigs d8 = true) (h8n : d8 ≠ [])
    (ht : headNotDig t = true) :
    parseCharLine (mkCharLine d1 d2 d3 d4 d5 d6 d7 d8 t) =
      some ⟨(digsVal d1 : Int), (digsVal d2 : Int), (digsVal d3 : Int), (digsVal d4 : Int),
        (digsVal d5 : Int), (digsVal d6 : Int)⟩ := by
  unfold parseCharLine
  rw [matchCaptures_mkCharLine h1 h1n h2 h2n h3 h3n h4 h4n h5 h5n h6 h6n h7 h7n h8 h8n ht]
  rfl

/-! The claims.  The operation fix of the specification is the method
analyzeFontAndFixIssues. -/

/-- Claim C6: applying fix to the empty input string succeeds and
yields an empty corrected text and an empty correction log, not an
error.  The falsy guard on the stored font data returns the empty
string at once for empty input. -/
theorem C6_empty_input : analyzeFontAndFixIssues [] = .ok ([], []) := rfl

/-- Claim C2: the fix operation fails if and only if some input line
begins with the glyph-record marker but the mandatory fields cannot
all be located by the field pattern; an error carries no corrected
text, so no partial output is produced. -/
theorem C2_malformed_abort (raw : List Char) :
    ((∃ e, analyzeFontAndFixIssues raw = .error e) ↔
      ∃ l ∈ splitNl raw, isPre charMarker l = true ∧ parseCharLine l = none) ∧
    (∀ e, analyzeFontAndFixIssues raw = .error e →
      ∀ out : List Char × List (List Char), analyzeFontAndFixIssues raw ≠ .ok out) := by
  refine ⟨fix_error_iff raw, ?_⟩
  intro e he out hok
  rw [he] at hok
  cases hok

/-- Witness for C2 at a concrete input: the spec example line
char id=2 width=5 starts with the marker, lacks the x key, and makes
the whole operation fail. -/
theorem C2_witness : ∃ e, analyzeFontAndFixIssues "char id=2 width=5".data = .error e :=
  (C2_malformed_abort "char id=2 width=5".data).1.mpr
    ⟨"char id=2 width=5".data, by decide, by decide, by rfl⟩

/-- Counterexample to claim C5 as stated: on the non-empty input a the
fix succeeds but the corrected text has one line more than the input
(the loop appends a newline after every line, creating a final empty
line). -/
theorem C5_cex :
    analyzeFontAndFixIssues "a".data = .ok ("a\n".data, []) ∧
      (splitNl "a\n".data).length ≠ (splitNl "a".data).length := by
  constructor
  · rfl
  · decide

/-- Claim C5, amended: for every non-empty input on which fix
succeeds, the corrected output has exactly one more line than the
input; only the empty input keeps its line count. -/
theorem C5_line_count (raw y : List Char) (iss : List (List Char))
    (h : analyzeFontAndFixIssues raw = .ok (y, iss)) (hne : raw ≠ []) :
    (splitNl y).length = (splitNl raw).length + 1 := by
  obtain ⟨hy, -⟩ := fix_ok_structure h hne
  rw [hy]
  simp

/-- Witness for the amended C5 at a concrete input. -/
theorem C5_witness : (splitNl "a\n".data).length = (splitNl "a".data).length + 1 :=
  C5_line_count "a".data "a\n".data [] rfl (by decide)

/-- Counterexample to claim C3 as stated: fix succeeds on a well
formed glyph line, but applying fix to its own corrected output fails
with a MalformedRecordError instead of returning the same text,
because the rewritten line has no x key for the pattern to find. -/
theorem C3_cex :
    analyzeFontAndFixIssues
        "char id=1 x=2 y=3 width=4 height=5 xoffset=6 yoffset=7 xadvance=8".data =
      .ok ("char id=1 xoffset=2 yoffset=3 width=4 height=5 xadvance=6\n".data, []) ∧
    analyzeFontAndFixIssues
        "char id=1 xoffset=2 yoffset=3 width=4 height=5 xadvance=6\n".data =
      .error
        "Malformed char line: char id=1 xoffset=2 yoffset=3 width=4 height=5 xadvance=6".data :=
  ⟨rfl, rfl⟩

/-- Claim C3, amended: for every input on which fix succeeds that
contains at least one glyph-record line, applying fix to the corrected
output fails with a MalformedRecordError: the rewritten glyph lines
drop the x and y keys that the field pattern requires, so a second
pass cannot parse them.  In particular fix is not idempotent on any
input containing a glyph record. -/
theorem C3_second_pass_fails (raw y : List Char) (iss : List (List Char))
    (h : analyzeFontAndFixIssues raw = .ok (y, iss))
    (hglyph : ∃ l ∈ splitNl raw, isPre charMarker l = true) :
    ∃ e, analyzeFontAndFixIssues y = .error e := by
  obtain ⟨l0, hl0, hm0⟩ := hglyph
  have hraw : raw ≠ [] := by
    rintro rfl
    simp [splitNl] at hl0
    subst hl0
    exact absurd hm0 (by decide)
  obtain ⟨hy, -⟩ := fix_ok_structure h hraw
  cases hp : parseCharLine l0 with
  | none =>
    exfalso
    have hno : ¬∃ e, analyzeFontAndFixIssues raw = .error e := by
      rintro ⟨e, he⟩
      rw [h] at he
      cases he
    exact hno ((fix_error_iff raw).mpr ⟨l0, hl0, hm0, hp⟩)
  | some g =>
    apply (fix_error_iff y).mpr
    refine ⟨createCharLine (fixGlyph g).1, ?_, isPre_marker_createCharLine _,
      parseCharLine_createCharLine _⟩
    rw [hy]
    apply List.mem_append_left
    refine List.mem_map.mpr ⟨l0, hl0, ?_⟩
    unfold outLine
    rw [if_pos hm0, hp]

/-- Witness for the amended C3 at a concrete input. -/
theorem C3_witness :
    ∃ e, analyzeFontAndFixIssues
      "char id=1 xoffset=2 yoffset=3 width=4 height=5 xadvance=6\n".data = .error e :=
  C3_second_pass_fails
    "char id=1 x=2 y=3 width=4 height=5 xoffset=6 yoffset=7 xadvance=8".data
    "char id=1 xoffset=2 yoffset=3 width=4 height=5 xadvance=6\n".data [] rfl
    ⟨"char id=1 x=2 y=3 width=4 height=5 xoffset=6 yoffset=7 xadvance=8".data,
      by decide, by decide⟩

/-- Claim C7: for every input on which fix succeeds and every input
line that does not begin with the glyph-record marker, the output line
at the same position is identical to the input line. -/
theorem C7_passthrough (raw y : List Char) (iss : List (List Char)) (i : Nat) (l : List Char)
    (h : analyzeFontAndFixIssues raw = .ok (y, iss))
    (hl : (splitNl raw).get? i = some l) (hm : isPre charMarker l = false) :
    (splitNl y).get? i = some l := by
  by_cases hraw : raw = []
  · subst hraw
    unfold analyzeFontAndFixIssues at h
    rw [if_pos rfl] at h
    cases h
    exact hl
  · obtain ⟨hy, -⟩ := fix_ok_structure h hraw
    rw [hy]
    have hlt : i < (splitNl raw).length := by
      by_contra hge
      push_neg at hge
      rw [List.get?_eq_none.mpr hge] at hl
      cases hl
    rw [List.get?_append (by simpa using hlt), List.get?_map, hl]
    simp [outLine, hm]

/-- Witness for C7 at a concrete input: the info line of a two-line
descriptor passes through unchanged. -/
theorem C7_witness :
    (splitNl "info\nchar id=2 xoffset=0 yoffset=0 width=9 height=5 xadvance=10\n".data).get? 0 =
      some "info".data :=
  C7_passthrough "info\nchar id=2 x=0 y=0 width=9 height=5 xoffset=1 yoffset=7 xadvance=8".data
    "info\nchar id=2 xoffset=0 yoffset=0 width=9 height=5 xadvance=10\n".data
    ["Glyph ID 2: xOffset + width (9) exceeds xAdvance (1), adjusting xAdvance.".data]
    0 "info".data rfl (by decide) (by decide)

/-- Claim C1: every glyph-record line of a successful corrected output
is the rewrite of a record with xoffset at least 0, yoffset at least 0
whenever width is positive, and xoffset + width at most xadvance; and
whenever the overflow rule fires on a record with non-negative
offsets, the new xadvance is exactly xoffset + width + 1. -/
theorem C1_invariant_satisfaction :
    (∀ raw y iss, analyzeFontAndFixIssues raw = .ok (y, iss) →
      ∀ l ∈ splitNl y, isPre charMarker l = true →
        ∃ g : Glyph, l = createCharLine g ∧ 0 ≤ g.xoffset ∧ (0 < g.width → 0 ≤ g.yoffset) ∧
          g.xoffset + g.width ≤ g.xadvance) ∧
    (∀ g : Glyph, 0 ≤ g.xoffset → 0 ≤ g.yoffset → g.xoffset + g.width > g.xadvance →
      (fixGlyph g).1.xadvance = g.xoffset + g.width + 1) := by
  constructor
  · intro raw y iss h l hl hm
    by_cases hraw : raw = []
    · subst hraw
      unfold analyzeFontAndFixIssues at h
      rw [if_pos rfl] at h
      cases h
      simp [splitNl] at hl
      subst hl
      exact absurd hm (by decide)
    · obtain ⟨hy, -⟩ := fix_ok_structure h hraw
      rw [hy] at hl
      rcases List.mem_append.mp hl with hl | hl
      · obtain ⟨l0, hl0, rfl⟩ := List.mem_map.mp hl
        by_cases hm0 : isPre charMarker l0 = true
        · cases hp : parseCharLine l0 with
          | none =>
            exfalso
            have hno : ¬∃ e, analyzeFontAndFixIssues raw = .error e := by
              rintro ⟨e, he⟩
              rw [h] at he
              cases he
            exact hno ((fix_error_iff raw).mpr ⟨l0, hl0, hm0, hp⟩)
          | some g =>
            obtain ⟨-, hgx, hgy, -, -⟩ := parseCharLine_nonneg hp
            obtain ⟨i1, i2, i3⟩ := fixGlyph_invariants hgx hgy
            exact ⟨(fixGlyph g).1, by simp [outLine, hm0, hp], i1, fun _ => i2, i3⟩
        · rw [show outLine l0 = l0 from by simp [outLine, hm0]] at hm
          exact absurd hm hm0
      · simp at hl
        subst hl
        exact absurd hm (by decide)
  · intro g hx hy hover
    rw [fixGlyph_of_nonneg hx hy, if_pos hover]

/-- Witness for C1 at a concrete input with an overflowing glyph. -/
theorem C1_witness :
    ∃ g : Glyph,
      "char id=2 xoffset=0 yoffset=0 width=9 height=5 xadvance=10".data = createCharLine g ∧
      0 ≤ g.xoffset ∧ (0 < g.width → 0 ≤ g.yoffset) ∧ g.xoffset + g.width ≤ g.xadvance :=
  C1_invariant_satisfaction.1
    "info\nchar id=2 x=0 y=0 width=9 height=5 xoffset=1 yoffset=7 xadvance=8".data
    "info\nchar id=2 xoffset=0 yoffset=0 width=9 height=5 xadvance=10\n".data
    ["Glyph ID 2: xOffset + width (9) exceeds xAdvance (1), adjusting xAdvance.".data]
    rfl "char id=2 xoffset=0 yoffset=0 width=9 height=5 xadvance=10".data
    (by decide) (by decide)

/-- Claim C10: every parsed record has non-negative xoffset and
yoffset (they come from the unsigned x and y captures), so the clamp
condition of the negative-offset rule is unsatisfiable, and the
correction log of any successful run holds only advance-overflow
messages, never a negative-offset message. -/
theorem C10_negative_clamp_unreachable :
    (∀ (line : List Char) (g : Glyph), parseCharLine line = some g →
      0 ≤ g.xoffset ∧ 0 ≤ g.yoffset ∧ ¬(0 < g.width ∧ (g.xoffset < 0 ∨ g.yoffset < 0))) ∧
    (∀ raw y iss, analyzeFontAndFixIssues raw = .ok (y, iss) →
      ∀ m ∈ iss, ∃ g, m = boundMsg g) := by
  constructor
  · intro line g hp
    obtain ⟨-, hgx, hgy, -, -⟩ := parseCharLine_nonneg hp
    refine ⟨hgx, hgy, ?_⟩
    rintro ⟨-, hneg | hneg⟩ <;> omega
  · intro raw y iss h m hm
    by_cases hraw : raw = []
    · subst hraw
      unfold analyzeFontAndFixIssues at h
      rw [if_pos rfl] at h
      cases h
      simp at hm
    · obtain ⟨-, hiss⟩ := fix_ok_structure h hraw
      rw [hiss, List.mem_flatten] at hm
      obtain ⟨iss0, hiss0, hmem⟩ := hm
      obtain ⟨l0, hl0, rfl⟩ := List.mem_map.mp hiss0
      unfold lineIss at hmem
      by_cases hm0 : isPre charMarker l0 = true
      · rw [if_pos hm0] at hmem
        cases hp : parseCharLine l0 with
        | none => rw [hp] at hmem; simp at hmem
        | some g =>
          rw [hp] at hmem
          simp only at hmem
          obtain ⟨-, hgx, hgy, -, -⟩ := parseCharLine_nonneg hp
          rw [fixGlyph_of_nonneg hgx hgy] at hmem
          by_cases hov : g.xoffset + g.width > g.xadvance
          · rw [if_pos hov] at hmem
            simp at hmem
            exact ⟨g, hmem⟩
          · rw [if_neg hov] at hmem
            simp at hmem
      · rw [if_neg hm0] at hmem
        simp at hmem

/-- Witness for C10 at a concrete parsed record. -/
theorem C10_witness :
    0 ≤ (⟨1, 2, 3, 4, 5, 6⟩ : Glyph).xoffset ∧ 0 ≤ (⟨1, 2, 3, 4, 5, 6⟩ : Glyph).yoffset ∧
      ¬(0 < (⟨1, 2, 3, 4, 5, 6⟩ : Glyph).width ∧
        ((⟨1, 2, 3, 4, 5, 6⟩ : Glyph).xoffset < 0 ∨ (⟨1, 2, 3, 4, 5, 6⟩ : Glyph).yoffset < 0)) :=
  C10_negative_clamp_unreachable.1
    "char id=1 x=2 y=3 width=4 height=5 xoffset=6 yoffset=7 xadvance=8".data
    ⟨1, 2, 3, 4, 5, 6⟩ rfl

/-! Per-line correction count. -/

theorem lineIss_length (l : List Char) :
    (lineIss l).length = if changedLine l = true then 1 else 0 := by
  unfold lineIss changedLine
  by_cases hm : isPre charMarker l = true
  · cases hp : parseCharLine l with
    | none => simp [hm, hp]
    | some g =>
      obtain ⟨-, hgx, hgy, -, -⟩ := parseCharLine_nonneg hp
      by_cases hov : g.xoffset + g.width > g.xadvance
      · have hch : (fixGlyph g).1 ≠ g := (fixGlyph_changed_iff hgx hgy).mpr hov
        have hissg : (fixGlyph g).2 = [boundMsg g] := by
          rw [fixGlyph_of_nonneg hgx hgy, if_pos hov]
        simp [hm, hp, hissg, hch]
      · have hch : (fixGlyph g).1 = g := by
          rw [fixGlyph_of_nonneg hgx hgy, if_neg hov]
        have hissg : (fixGlyph g).2 = [] := by
          rw [fixGlyph_of_nonneg hgx hgy, if_neg hov]
        simp [hm, hp, hissg, hch]
  · simp [hm]

theorem flatten_length_filter (L : List (List Char)) :
    ((L.map lineIss).flatten).length = (L.filter changedLine).length := by
  induction L with
  | nil => simp
  | cons l L ih =>
    rw [List.map_cons, List.flatten_cons, List.length_append, ih, lineIss_length l,
      List.filter_cons]
    by_cases hc : changedLine l = true
    · simp [hc]
      omega
    · simp [hc]

/-- Claim C8: the number of entries in the correction log of a
successful run equals the number of glyph-record lines whose parsed
record changed value during fixing; a record already satisfying both
invariants contributes no entry. -/
theorem C8_correction_count (raw y : List Char) (iss : List (List Char))
    (h : analyzeFontAndFixIssues raw = .ok (y, iss)) :
    iss.length = ((splitNl raw).filter changedLine).length := by
  by_cases hraw : raw = []
  · subst hraw
    unfold analyzeFontAndFixIssues at h
    rw [if_pos rfl] at h
    cases h
    decide
  · obtain ⟨-, hiss⟩ := fix_ok_structure h hraw
    rw [hiss, flatten_length_filter]

/-- Witness for C8 at a concrete input with one unchanged glyph, one
changed glyph, and one passthrough line. -/
theorem C8_witness :
    (["Glyph ID 2: xOffset + width (9) exceeds xAdvance (1), adjusting xAdvance.".data]).length =
      ((splitNl ("info\nchar id=1 x=2 y=3 width=4 height=5 xoffset=6 yoffset=7 xadvance=8\nchar id=2 x=0 y=0 width=9 height=5 xoffset=1 yoffset=7 xadvance=8".data)).filter
        changedLine).length :=
  C8_correction_count
    "info\nchar id=1 x=2 y=3 width=4 height=5 xoffset=6 yoffset=7 xadvance=8\nchar id=2 x=0 y=0 width=9 height=5 xoffset=1 yoffset=7 xadvance=8".data
    "info\nchar id=1 xoffset=2 yoffset=3 width=4 height=5 xadvance=6\nchar id=2 xoffset=0 yoffset=0 width=9 height=5 xadvance=10\n".data
    ["Glyph ID 2: xOffset + width (9) exceeds xAdvance (1), adjusting xAdvance.".data]
    rfl

/-- Counterexample to claim C4 as stated: this line starts with the
marker and contains every mandatory field as a key=value token, but
with x and y swapped out of the pattern order, and parsing fails: the
pattern requires the keys in the fixed order id, x, y, width, height,
xoffset, yoffset, xadvance. -/
theorem C4_cex :
    parseCharLine "char id=1 y=3 x=2 width=4 height=5 xoffset=6 yoffset=7 xadvance=8".data =
        none ∧
      isPre charMarker
        "char id=1 y=3 x=2 width=4 height=5 xoffset=6 yoffset=7 xadvance=8".data = true ∧
      "id=1".data <:+:
        "char id=1 y=3 x=2 width=4 height=5 xoffset=6 yoffset=7 xadvance=8".data ∧
      "x=2".data <:+:
        "char id=1 y=3 x=2 width=4 height=5 xoffset=6 yoffset=7 xadvance=8".data ∧
      "y=3".data <:+:
        "char id=1 y=3 x=2 width=4 height=5 xoffset=6 yoffset=7 xadvance=8".data ∧
      "width=4".data <:+:
        "char id=1 y=3 x=2 width=4 height=5 xoffset=6 yoffset=7 xadvance=8".data ∧
      "height=5".data <:+:
        "char id=1 y=3 x=2 width=4 height=5 xoffset=6 yoffset=7 xadvance=8".data ∧
      "xoffset=6".data <:+:
        "char id=1 y=3 x=2 width=4 height=5 xoffset=6 yoffset=7 xadvance=8".data ∧
      "yoffset=7".data <:+:
        "char id=1 y=3 x=2 width=4 height=5 xoffset=6 yoffset=7 xadvance=8".data ∧
      "xadvance=8".data <:+:
        "char id=1 y=3 x=2 width=4 height=5 xoffset=6 yoffset=7 xadvance=8".data :=
  ⟨rfl, by decide, by decide, by decide, by decide, by decide, by decide, by decide,
    by decide, by decide⟩

/-- Claim C4, amended: parsing succeeds and captures all eight field
values for every glyph-record line in which the mandatory fields
appear in the pattern order id, x, y, width, height, xoffset, yoffset,
xadvance with non-negative decimal values and single separating
spaces, and arbitrary further content (not starting with a digit) may
follow; with the fields in a different order the pattern can fail, as
the counterexample shows, so success is not order-independent. -/
theorem C4_field_order {d1 d2 d3 d4 d5 d6 d7 d8 t : List Char}
    (h1 : allDigs d1 = true) (h1n : d1 ≠ []) (h2 : allDigs d2 = true) (h2n : d2 ≠ [])
    (h3 : allDigs d3 = true) (h3n : d3 ≠ []) (h4 : allDigs d4 = true) (h4n : d4 ≠ [])
    (h5 : allDigs d5 = true) (h5n : d5 ≠ []) (h6 : allDigs d6 = true) (h6n : d6 ≠ [])
    (h7 : allDigs d7 = true) (h7n : d7 ≠ []) (h8 : allDigs d8 = true) (h8n : d8 ≠ [])
    (ht : headNotDig t = true) :
    matchCaptures (mkCharLine d1 d2 d3 d4 d5 d6 d7 d8 t) =
      some ((digsVal d1 : Int), (digsVal d2 : Int), (digsVal d3 : Int), (digsVal d4 : Int),
        (digsVal d5 : Int), (digsVal d6 : Int), (digsVal d7 : Int), (digsVal d8 : Int)) :=
  matchCaptures_mkCharLine h1 h1n h2 h2n h3 h3n h4 h4n h5 h5n h6 h6n h7 h7n h8 h8n ht

/-- Witness for the amended C4 at a concrete in-order line with
trailing extra fields. -/
theorem C4_witness :
    matchCaptures (mkCharLine ['1'] ['2'] ['3'] ['4'] ['5'] ['6'] ['7'] ['8']
      " page=0 chnl=15".data) = some (1, 2, 3, 4, 5, 6, 7, 8) :=
  C4_field_order (by decide) (by decide) (by decide) (by decide) (by decide) (by decide)
    (by decide) (by decide) (by decide) (by decide) (by decide) (by decide) (by decide)
    (by decide) (by decide) (by decide) (by decide)

/-- Claim C9: on any line the pattern accepts, the record is built
from capture groups 1 to 6 of the eight: its xoffset field holds the
value of the x key, its yoffset field the value of the y key, and its
xadvance field the value of the xoffset key, while the values of the
yoffset and xadvance keys (groups 7 and 8, here d7 and d8) are matched
but absent from the result. -/
theorem C9_capture_shift {d1 d2 d3 d4 d5 d6 d7 d8 t : List Char}
    (h1 : allDigs d1 = true) (h1n : d1 ≠ []) (h2 : allDigs d2 = true) (h2n : d2 ≠ [])
    (h3 : allDigs d3 = true) (h3n : d3 ≠ []) (h4 : allDigs d4 = true) (h4n : d4 ≠ [])
    (h5 : allDigs d5 = true) (h5n : d5 ≠ []) (h6 : allDigs d6 = true) (h6n : d6 ≠ [])
    (h7 : allDigs d7 = true) (h7n : d7 ≠ []) (h8 : allDigs d8 = true) (h8n : d8 ≠ [])
    (ht : headNotDig t = true) :
    parseCharLine (mkCharLine d1 d2 d3 d4 d5 d6 d7 d8 t) =
      some ⟨(digsVal d1 : Int), (digsVal d2 : Int), (digsVal d3 : Int), (digsVal d4 : Int),
        (digsVal d5 : Int), (digsVal d6 : Int)⟩ :=
  parseCharLine_mkCharLine h1 h1n h2 h2n h3 h3n h4 h4n h5 h5n h6 h6n h7 h7n h8 h8n ht

/-- Witness for C9 at a concrete line: the record returns 66, the
value of the xoffset key, as its xadvance field, and the values 77 and
88 of the yoffset and xadvance keys appear nowhere in it. -/
theorem C9_witness :
    parseCharLine (mkCharLine ['1', '1'] ['2', '2'] ['3', '3'] ['4', '4'] ['5', '5']
      ['6', '6'] ['7', '7'] ['8', '8'] []) = some ⟨11, 22, 33, 44, 55, 66⟩ :=
  C9_capture_shift (by decide) (by decide) (by decide) (by decide) (by decide) (by decide)
    (by decide) (by decide) (by decide) (by decide) (by decide) (by decide) (by decide)
    (by decide) (by decide) (by decide) (by decide)
